import Mathlib

/-!
Verification of the activation-confidence annotation pipeline
(`medleydb/annotate/activation_conf.py`).

The numeric code is embedded over `ℝ` (the spec asks for behavioural, not
bit-for-bit floating-point, fidelity).  A per-stem waveform is a `List ℝ`;
a multitrack's stem mapping is an association list `List (ℕ × List ℝ)` in
its iteration order; the stages of `create_activation_annotation` are
translated line by line below.  Failures that in Python surface as library
exceptions are modelled by an `Except NpError` result.
-/

namespace ActivationConf

noncomputable section

open Real

/-- `hwr(x) = (x + np.abs(x)) / 2` — half-wave rectification (source `hwr`). -/
def hwr (x : ℝ) : ℝ := (x + |x|) / 2

/-- `scipy.signal.windows.hann M` (symmetric form, used in the source with
`M = win_len + 2 ≥ 2`): entry `k` is `0.5 - 0.5*cos(2*pi*k/(M-1))`. -/
def hann (M : ℕ) : List ℝ :=
  (List.range M).map (fun (k : ℕ) => 1/2 - 1/2 * Real.cos (2 * Real.pi * (k:ℝ) / ((M : ℝ) - 1)))

/-- `win = scipy.signal.windows.hann(win_len + 2)[1:-1]` — the analysis window
built in `create_activation_annotation`. -/
def makeWin (win_len : ℕ) : List ℝ := ((hann (win_len + 2)).drop 1).dropLast

/-- A periodic (DFT-even) Hann window of length `M`.
Modelled from the spec: the "periodic/default Hann window" that the design
says must NOT be substituted for the trimmed symmetric construction;
entry `k` is `0.5 - 0.5*cos(2*pi*k/M)`. -/
def periodicHannSpec (M : ℕ) : List ℝ :=
  (List.range M).map (fun (k : ℕ) => 1/2 - 1/2 * Real.cos (2 * Real.pi * (k:ℝ) / (M : ℝ)))

/-- The framing-and-averaging body of `track_activation`, for an already
validated (positive) hop length:
pre-pad with `win_len - hop_len` zeros, zero-pad to
`win_len * ceil(len/win_len)` samples (`librosa.util.fix_length`), slice into
overlapping frames of length `win_len` with stride `hop` (`librosa.util.frame`,
`1 + (len - win_len) / hop` frames), then per frame average
`sqrt(hwr(x)) * win` (`np.mean(wavmat.T * win, axis=1)`; `x ** 0.5` on the
rectified, hence non-negative, samples is `Real.sqrt`). -/
def envelopeFrames (wave : List ℝ) (win_len hop : ℕ) (win : List ℝ) : List ℝ :=
  let padded := List.replicate (win_len - hop) (0 : ℝ) ++ wave
  -- `int(win_len * np.ceil(len(wave) / win_len))`, exact for `win_len > 0`
  let target := win_len * ((padded.length + win_len - 1) / win_len)
  let fixedw := (padded ++ List.replicate (target - padded.length) (0 : ℝ)).take target
  let nF := (fixedw.length - win_len) / hop + 1
  (List.range nF).map (fun i =>
    (List.zipWith (fun x w => Real.sqrt (hwr x) * w)
      ((fixedw.drop (i * hop)).take win_len) win).sum / (win_len : ℝ))

/-- Body of `track_activation` with the hop length as an explicit argument
(the source computes `hop_len = win_len // 2` on its first line).
`librosa.util.frame` validates its hop: when `hop_len = 0` — which happens
exactly for `win_len ≤ 1` — it raises `ParameterError` instead of framing
(for `win_len = 0` the run already dies earlier, in the `fix_length` target
computation), modelled as `none`; otherwise the envelope is the
`envelopeFrames` body. -/
def track_activation_core (wave : List ℝ) (win_len hop : ℕ) (win : List ℝ) : Option (List ℝ) :=
  if hop = 0 then none
  else some (envelopeFrames wave win_len hop win)

/-- `track_activation(wave, win_len, win)` from the source: the core with
`hop_len = win_len // 2` (integer floor division). -/
def track_activation (wave : List ℝ) (win_len : ℕ) (win : List ℝ) : Option (List ℝ) :=
  track_activation_core wave win_len (win_len / 2) win

/-- Number of columns of a row-major matrix, read off the first row
(the pipeline only uses it on rectangular data). -/
def nCols (H : List (List ℝ)) : ℕ := (H.headD []).length

/-- `E0 = np.sum(H, axis=0)`: the per-frame cross-stem sum, as a function of
the frame index (out-of-range entries read as the padding default `0`). -/
def E0 (H : List (List ℝ)) (j : ℕ) : ℝ := (H.map (fun r => r.getD j 0)).sum

/-- `np.max` of a list.  On a nonempty list this is the maximum of its
entries (the head default is absorbed).  On the empty list of frame indices
— the zero-stems case — it returns `0`, which matches the program: there
`np.sum(np.array([]), axis=0)` collapses to the scalar `0.0` and
`np.max(0.0)` succeeds with `0.0` (it is not an error). -/
def maxList (l : List ℝ) : ℝ := l.foldl max (l.headD 0)

/-- `np.max(E0)` over all frame indices of `H`. -/
def maxE0 (H : List (List ℝ)) : ℝ := maxList ((List.range (nCols H)).map (E0 H))

/-- `H = len(mtrack.stems) * H / np.max(E0)`: element-wise scaling of the
stacked envelope matrix. -/
def scaleH (N : ℕ) (m : ℝ) (H : List (List ℝ)) : List (List ℝ) :=
  H.map (List.map (fun x => (N : ℝ) * x / m))

/-- `H[:, E0 < 0.01] = 0.0`: the low-energy gate, zeroing every column whose
pre-scaling raw sum is below `0.01`. -/
def gateH (E : ℕ → ℝ) (H : List (List ℝ)) : List (List ℝ) :=
  H.map (fun r => (List.range r.length).map (fun j => if E j < 1/100 then 0 else r.getD j 0))

/-- The Aggregator stage of `create_activation_annotation`: scale by
`N / max(E0)` then apply the low-energy gate driven by the pre-scaling `E0`. -/
def aggregate (N : ℕ) (H : List (List ℝ)) : List (List ℝ) :=
  gateH (E0 H) (scaleH N (maxE0 H) H)

/-- Coefficients of a second-order IIR section `b = [b0,b1,b2]`,
`a = [1,a1,a2]`. -/
structure IIR2 where
  b0 : ℝ
  b1 : ℝ
  b2 : ℝ
  a1 : ℝ
  a2 : ℝ

/-- `scipy.signal.butter(2, Wn, 'low')`: the analogue Butterworth prototype
`1/(s^2 + sqrt 2 * s + 1)` warped by `K = tan(pi*Wn/2)` and discretised by the
bilinear transform. -/
def butter2 (Wn : ℝ) : IIR2 :=
  let K := Real.tan (Real.pi * Wn / 2)
  let D := 1 + Real.sqrt 2 * K + K ^ 2
  ⟨K ^ 2 / D, 2 * K ^ 2 / D, K ^ 2 / D, 2 * (K ^ 2 - 1) / D, (1 - Real.sqrt 2 * K + K ^ 2) / D⟩

/-- `scipy.signal.lfilter` for a second-order section in direct-form-II
transposed, with explicit initial conditions `(z0, z1)`. -/
def lfilter2 (c : IIR2) : List ℝ → ℝ → ℝ → List ℝ
  | [], _, _ => []
  | x :: xs, z0, z1 =>
    let y := c.b0 * x + z0
    y :: lfilter2 c xs (c.b1 * x + z1 - c.a1 * y) (c.b2 * x - c.a2 * y)

/-- `scipy.signal.lfilter_zi` for a second-order section: the solution of
`(I - companion(a)ᵀ) zi = b[1:] - a[1:] * b[0]`, written out by Cramer's
rule on the 2×2 system. -/
def lfilterZi2 (c : IIR2) : ℝ × ℝ :=
  let B0 := c.b1 - c.a1 * c.b0
  let B1 := c.b2 - c.a2 * c.b0
  let det := 1 + c.a1 + c.a2
  ((B0 + B1) / det, ((1 + c.a1) * B1 - c.a2 * B0) / det)

/-- `scipy.signal._arraytools.odd_ext(x, n)`: odd reflection about the first
and last samples, n samples on each side. -/
def oddExt (x : List ℝ) (n : ℕ) : List ℝ :=
  let L := x.length
  ((List.range n).map (fun i => 2 * x.getD 0 0 - x.getD (n - i) 0))
    ++ x
    ++ ((List.range n).map (fun i => 2 * x.getD (L - 1) 0 - x.getD (L - 2 - i) 0))

/-- `scipy.signal.filtfilt(b, a, x)` with the default odd extension of
`padlen = 3 * max(len(a), len(b)) = 9` samples: filter forward, reverse,
filter again, reverse, and trim the extension; initial conditions are
`lfilter_zi(b, a)` scaled by the first sample of each pass's input. -/
def filtfilt2 (c : IIR2) (x : List ℝ) : List ℝ :=
  let edge := 9
  let ext := oddExt x edge
  let zi := lfilterZi2 c
  let y1 := lfilter2 c ext (zi.1 * ext.headD 0) (zi.2 * ext.headD 0)
  let y2 := lfilter2 c y1.reverse (zi.1 * y1.reverse.headD 0) (zi.2 * y1.reverse.headD 0)
  ((y2.reverse).drop edge).take x.length

/-- `H = 1 - 1 / (1 + np.exp(np.dot(20, (H - theta))))` applied to one entry:
the logistic confidence map. -/
def conf (theta h : ℝ) : ℝ := 1 - 1 / (1 + Real.exp (20 * (h - theta)))

/-- `H_out = np.zeros(H.shape); H_out[H > 0.5] = 1` applied to one entry. -/
def binarizeVal (c : ℝ) : ℝ := if 1/2 < c then 1 else 0

/-- Row-major transpose, sized by the first row (the time row in the source's
`np.vstack((time, H_out)).T`). -/
def matT (rows : List (List ℝ)) : List (List ℝ) :=
  (List.range (nCols rows)).map (fun j => rows.map (fun r => r.getD j 0))

/-- The Python exceptions the pipeline can die with.  None of them is raised
by the repository's own code: they come out of numpy/scipy/librosa.  -/
inductive NpError where
  /-- `librosa.util.frame` raises `ParameterError` inside the per-stem loop
  when `hop_len = win_len // 2` is `0`; the first failing stem aborts the
  whole run. -/
  | paramErrorInvalidHop
  /-- `np.array` on per-stem envelopes of differing lengths: numpy's
  inhomogeneous-shape `ValueError`. -/
  | valueErrorInhomogeneous
  /-- Zero stems: the stacked `H` is a 1-d empty array, so the 2-d
  operations on it — the masked column assignment and `filtfilt` along
  `axis=1` — raise (and the loop-local `rate` used by the time axis is
  never bound).  The per-frame sum/maximum step is NOT where it dies:
  `np.sum(np.array([]), axis=0)` is the scalar `0.0` and `np.max` of it
  succeeds. -/
  | axisErrorEmptyH
  /-- `filtfilt` raises `ValueError` when the signal is not longer than the
  default pad length `3 * max(len(a), len(b)) = 9`. -/
  | valueErrorPadlen

/-- `True` iff all rows have the length of the first one; for a nonempty list
this is exactly when `np.array` builds a rectangular 2-d array. -/
def allSameLength (l : List (List ℝ)) : Bool :=
  l.all (fun r => r.length == (l.headD []).length)

/-- The per-stem loop of `create_activation_annotation`: each iteration's
`track_activation` call either yields an envelope or raises, and the first
raising stem aborts the whole run (no partial results), so the list of
envelopes exists exactly when every call succeeded. -/
def seqEnvs : List (Option (List ℝ)) → Option (List (List ℝ))
  | [] => some []
  | none :: _ => none
  | some e :: rest => (seqEnvs rest).map (fun es => e :: es)

/-- The numeric tail of `create_activation_annotation` once the stacked
envelope matrix `envs` is known to be rectangular: Aggregator
(`numStems = len(mtrack.stems)` rows), Smoother (`butter` + `filtfilt`
along each row), ConfidenceMapper, optional binarization, then the time
column `f * (win_len // 2) / 44100` (`librosa.core.frames_to_time`; `rate`
is 44100 from `librosa.load`) stacked on top and the whole matrix
transposed. -/
def assemble (numStems : ℕ) (envs : List (List ℝ)) (win_len : ℕ)
    (lpf_cutoff theta : ℝ) (binarize : Bool) : List (List ℝ) :=
  let H1 := aggregate numStems envs
  let H2 := H1.map (filtfilt2 (butter2 lpf_cutoff))
  let H3 := H2.map (List.map (conf theta))
  let H4 := if binarize then H3.map (List.map binarizeVal) else H3
  let time := (List.range (envs.headD []).length).map
    (fun f => ((f * (win_len / 2) : ℕ) : ℝ) / 44100)
  matT (time :: H4)

/-- `create_activation_annotation(mtrack, win_len, lpf_cutoff, theta,
binarize)`.  `stems` is the stem mapping in its iteration order; the result
pairs the frame-major activation matrix with `index_list`.  The error
branches sit where the corresponding library call raises: `librosa.util.frame`
inside the stem loop, `np.array` on ragged envelopes, and `filtfilt` on an
empty (1-d) or too-short matrix. -/
def createActivation (stems : List (ℕ × List ℝ)) (win_len : ℕ)
    (lpf_cutoff theta : ℝ) (binarize : Bool) :
    Except NpError (List (List ℝ) × List ℕ) :=
  match seqEnvs (stems.map (fun p => track_activation p.2 win_len (makeWin win_len))) with
  | none => .error .paramErrorInvalidHop
  | some envs =>
    if envs.isEmpty then .error .axisErrorEmptyH
    else if allSameLength envs then
      if (envs.headD []).length ≤ 9 then .error .valueErrorPadlen
      else .ok (assemble stems.length envs win_len lpf_cutoff theta binarize,
                stems.map Prod.fst)
    else .error .valueErrorInhomogeneous

/-- The index list of a pipeline run, when it returned one. -/
def resultIndexList (r : Except NpError (List (List ℝ) × List ℕ)) : Option (List ℕ) :=
  match r with
  | .ok p => some p.2
  | .error _ => none

/-- Concrete stem mappings used to evaluate the pipeline at small inputs:
a 48-sample silent waveform (13 frames at `win_len = 8`, enough for the
`filtfilt` pad length). -/
def silent48 : List ℝ := List.replicate 48 (0 : ℝ)

/-- A 10-sample silent waveform (short stem for the mismatch scenario). -/
def silent10 : List ℝ := List.replicate 10 (0 : ℝ)

/-- A 50-sample silent waveform (long stem for the mismatch scenario). -/
def silent50 : List ℝ := List.replicate 50 (0 : ℝ)

/-- A 40-sample silent waveform (odd-window scenario). -/
def silent40 : List ℝ := List.replicate 40 (0 : ℝ)

end

/-! ### Helper lemmas -/

/-- Reading a mapped list below its length commutes with the map, whatever
defaults are supplied. -/
theorem getD_map_lt {α β : Type*} (f : α → β) (l : List α) (i : ℕ) (hi : i < l.length)
    (d : β) (d' : α) : (l.map f).getD i d = f (l.getD i d') := by
  have hi' : i < (l.map f).length := by simpa using hi
  rw [List.getD_eq_getElem _ _ hi', List.getElem_map, List.getD_eq_getElem _ _ hi]

/-- Reading `(List.range n).map g` below `n` yields `g i`. -/
theorem getD_range_map {β : Type*} (g : ℕ → β) (n i : ℕ) (hi : i < n) (d : β) :
    ((List.range n).map g).getD i d = g i := by
  have hi' : i < ((List.range n).map g).length := by simpa using hi
  rw [List.getD_eq_getElem _ _ hi', List.getElem_map, List.getElem_range]

/-- When the floored hop is positive, `track_activation` does not hit the
framing validation: it succeeds with the `envelopeFrames` body. -/
theorem track_activation_eq_some (wave : List ℝ) (win_len : ℕ) (win : List ℝ)
    (h : win_len / 2 ≠ 0) :
    track_activation wave win_len win
      = some (envelopeFrames wave win_len (win_len / 2) win) := by
  unfold track_activation track_activation_core
  rw [if_neg h]

/-- Sequencing a stem loop in which every call succeeded yields exactly the
list of envelopes. -/
theorem seqEnvs_map_some (envs : List (List ℝ)) :
    seqEnvs (envs.map some) = some envs := by
  induction envs with
  | nil => rfl
  | cons e es ih => simp [seqEnvs, ih]

/-- Closed form of the trimmed window: entry `k` of `hann(win_len+2)[1:-1]`
samples the length-`win_len+2` symmetric Hann window at position `k + 1`. -/
theorem makeWin_eq (win_len : ℕ) :
    makeWin win_len = (List.range win_len).map
      (fun (k : ℕ) => 1/2 - 1/2 * Real.cos (2 * Real.pi * ((k:ℝ) + 1) / ((win_len:ℝ) + 1))) := by
  unfold makeWin hann
  rw [@List.range_succ_eq_map (win_len + 1), List.map_cons, List.drop_one, List.tail_cons,
    List.map_map, List.range_succ, List.map_append, List.map_cons, List.map_nil,
    List.dropLast_concat]
  refine List.map_congr_left ?_
  intro k _
  have harg : 2 * Real.pi * ((Nat.succ k : ℕ) : ℝ) / (((win_len + 2 : ℕ) : ℝ) - 1)
      = 2 * Real.pi * ((k : ℝ) + 1) / ((win_len : ℝ) + 1) := by
    push_cast
    ring
  simp only [Function.comp]
  rw [harg]

/-- Every entry of the analysis window is non-negative. -/
theorem makeWin_nonneg (win_len : ℕ) : ∀ w ∈ makeWin win_len, 0 ≤ w := by
  rw [makeWin_eq]
  intro w hw
  rcases List.mem_map.mp hw with ⟨k, _, rfl⟩
  have := Real.cos_le_one (2 * Real.pi * ((k:ℝ) + 1) / ((win_len:ℝ) + 1))
  linarith

/-- The trimmed window has exactly `win_len` entries. -/
theorem makeWin_length (win_len : ℕ) : (makeWin win_len).length = win_len := by
  rw [makeWin_eq]; simp

/-- A frame's weighted sum of square-rooted rectified samples is non-negative
whenever the window weights are. -/
theorem zip_env_sum_nonneg : ∀ (fr win : List ℝ), (∀ w ∈ win, 0 ≤ w) →
    0 ≤ (List.zipWith (fun x w => Real.sqrt (hwr x) * w) fr win).sum := by
  intro fr
  induction fr with
  | nil => intro win _; simp
  | cons x xs ih =>
    intro win hw
    cases win with
    | nil => simp
    | cons w ws =>
      simp only [List.zipWith_cons_cons, List.sum_cons]
      have h1 : 0 ≤ Real.sqrt (hwr x) * w :=
        mul_nonneg (Real.sqrt_nonneg _) (hw w (List.mem_cons_self _ _))
      have h2 := ih ws (fun w' hw' => hw w' (List.mem_cons_of_mem _ hw'))
      linarith

/-! ### Claim theorems -/

/-- C1 (amended): the rows of the envelope matrix and the returned index list
follow the iteration order of the underlying stem mapping — whenever the
pipeline returns at all, the index list is exactly the mapping's keys in
iteration order, with no sorting applied. -/
theorem C1_rows_follow_iteration_order (stems : List (ℕ × List ℝ)) (win_len : ℕ)
    (lpf_cutoff theta : ℝ) (binarize : Bool) :
    resultIndexList (createActivation stems win_len lpf_cutoff theta binarize)
        = none ∨
      resultIndexList (createActivation stems win_len lpf_cutoff theta binarize)
        = some (stems.map Prod.fst) := by
  unfold createActivation
  cases hseq : seqEnvs (stems.map (fun p => track_activation p.2 win_len (makeWin win_len))) with
  | none => simp [resultIndexList]
  | some envs =>
    dsimp only
    split_ifs <;> simp [resultIndexList]

set_option maxHeartbeats 1600000 in
/-- C1 counterexample: a stem mapping iterated in the order `1, 0` produces
the index list `[1, 0]` (and hence that column order), which is not sorted
by ascending stem index. -/
theorem C1_counterexample :
    resultIndexList (createActivation [(1, silent48), (0, silent48)]
        8 (3/40) (3/20) false) = some [1, 0] ∧
      ¬ List.Pairwise (· < ·) [1, 0] := by
  refine ⟨rfl, fun h => ?_⟩
  have := (List.pairwise_cons.mp h).1 0 (by simp)
  omega

/-- C2: on a stacked envelope matrix whose per-frame raw sum has a positive
maximum, the Aggregator's entry at stem `i`, frame `j` is `0` when the
pre-scaling sum `E0 j` is below `0.01`, and otherwise the original entry
multiplied by the single scalar `N / max E0`. -/
theorem C2_aggregator_pointwise (N : ℕ) (H : List (List ℝ)) (i j : ℕ)
    (hmax : 0 < maxE0 H) (hi : i < H.length) (hj : j < (H.getD i []).length) :
    ((aggregate N H).getD i []).getD j 0 =
      if E0 H j < 1/100 then 0
      else (N : ℝ) * ((H.getD i []).getD j 0) / maxE0 H := by
  unfold aggregate gateH scaleH
  rw [getD_map_lt _ _ i (by simpa using hi) [] []]
  rw [getD_map_lt _ _ i hi [] []]
  rw [List.length_map]
  rw [getD_range_map _ _ j hj 0]
  rcases lt_or_le (E0 H j) (1/100) with hE | hE
  · rw [if_pos hE, if_pos hE]
  · rw [if_neg (not_lt.mpr hE), if_neg (not_lt.mpr hE)]
    rw [getD_map_lt _ _ j hj 0 0]

/-- C2 witness: the Aggregator formula at the one-stem, one-frame matrix
`[[1]]`. -/
theorem C2_aggregator_witness :
    (0 < maxE0 [[(1:ℝ)]] ∧ 0 < [[(1:ℝ)]].length ∧ 0 < ([[(1:ℝ)]].getD 0 []).length) ∧
      ((aggregate 1 [[(1:ℝ)]]).getD 0 []).getD 0 0 =
        if E0 [[(1:ℝ)]] 0 < 1/100 then 0
        else ((1:ℕ) : ℝ) * (([[(1:ℝ)]].getD 0 []).getD 0 0) / maxE0 [[(1:ℝ)]] := by
  have h1 : (0:ℝ) < maxE0 [[(1:ℝ)]] := by
    norm_num [maxE0, maxList, nCols, E0, List.range_succ]
  exact ⟨⟨h1, by norm_num, by norm_num⟩,
    C2_aggregator_pointwise 1 [[(1:ℝ)]] 0 0 h1 (by norm_num) (by norm_num)⟩

/-- C3 (amended): when every stem is silent everywhere the code raises no
error: `np.max(E0)` is `0`, the division is never consulted because the
low-energy gate zeroes every frame (`E0` is everywhere below `0.01`), so the
Aggregator returns the all-zero matrix and the pipeline proceeds. -/
theorem C3_silent_gate_zeroes (N : ℕ) (H : List (List ℝ))
    (hz : ∀ r ∈ H, ∀ x ∈ r, x = (0:ℝ)) :
    ∀ r ∈ aggregate N H, ∀ x ∈ r, x = 0 := by
  have hE : ∀ j, E0 H j = 0 := by
    intro j
    unfold E0
    apply List.sum_eq_zero
    intro y hy
    rcases List.mem_map.mp hy with ⟨r, hr, rfl⟩
    rcases lt_or_le j r.length with hj | hj
    · rw [List.getD_eq_getElem _ _ hj]
      exact hz r hr _ (List.getElem_mem hj)
    · exact List.getD_eq_default _ _ hj
  intro r hr x hx
  unfold aggregate gateH at hr
  rcases List.mem_map.mp hr with ⟨row, hrow, rfl⟩
  rcases List.mem_map.mp hx with ⟨j, hj, rfl⟩
  rw [hE j, if_pos (by norm_num : (0:ℝ) < 1/100)]

/-- C3 witness: the all-silent two-frame single-stem matrix `[[0, 0]]` is
gated to the all-zero matrix rather than raising. -/
theorem C3_silent_gate_witness :
    (∀ r ∈ [[(0:ℝ), 0]], ∀ x ∈ r, x = 0) ∧
      (∀ r ∈ aggregate 1 [[(0:ℝ), 0]], ∀ x ∈ r, x = 0) :=
  ⟨by simp, C3_silent_gate_zeroes 1 [[(0:ℝ), 0]] (by simp)⟩

set_option maxHeartbeats 1600000 in
/-- C3 counterexample: an all-silent stem (100 zero samples) does not make
the pipeline fail — `create_activation_annotation` returns a matrix (the
claimed `DegenerateInput` failure does not happen). -/
theorem C3_counterexample :
    resultIndexList (createActivation [(0, silent48)] 8 (3/40) (3/20) false)
      = some [0] := rfl

/-- C4 (amended): for an odd `win_len ≥ 3` no configuration error is raised:
`hop_len = win_len // 2` silently floors to `(win_len - 1) / 2` and the
envelope extractor proceeds with that rounded hop, producing at least one
frame; only the degenerate odd value `win_len = 1` fails, and then with
librosa's invalid-hop `ParameterError` from the framing step, not with a
configuration check of the pipeline's own. -/
theorem C4_odd_window_floors (wave : List ℝ) (win_len : ℕ) (win : List ℝ)
    (hodd : win_len % 2 = 1) (h3 : 3 ≤ win_len) :
    (track_activation wave win_len win
        = some (envelopeFrames wave win_len ((win_len - 1) / 2) win) ∧
      ∀ env, track_activation wave win_len win = some env → 0 < env.length) ∧
    track_activation wave 1 win = none := by
  have hne : win_len / 2 ≠ 0 := by omega
  have hfloor : win_len / 2 = (win_len - 1) / 2 := by omega
  refine ⟨⟨?_, ?_⟩, rfl⟩
  · rw [track_activation_eq_some wave win_len win hne, hfloor]
  · intro env henv
    rw [track_activation_eq_some wave win_len win hne] at henv
    obtain rfl := Option.some.inj henv
    unfold envelopeFrames
    simp

/-- C4 witness: the floored hop at the odd window length 5. -/
theorem C4_odd_window_witness :
    (5 % 2 = 1 ∧ 3 ≤ 5) ∧
      ((track_activation [(0:ℝ)] 5 (makeWin 5)
          = some (envelopeFrames [(0:ℝ)] 5 ((5 - 1) / 2) (makeWin 5)) ∧
        ∀ env, track_activation [(0:ℝ)] 5 (makeWin 5) = some env → 0 < env.length) ∧
      track_activation [(0:ℝ)] 1 (makeWin 5) = none) :=
  ⟨⟨by decide, by decide⟩, C4_odd_window_floors [(0:ℝ)] 5 (makeWin 5) (by decide) (by decide)⟩

set_option maxHeartbeats 1600000 in
/-- C4 counterexample: with the odd `win_len = 5` the pipeline does not fail
with any configuration error — it runs to completion (hop floored to 2). -/
theorem C4_counterexample :
    resultIndexList (createActivation [(0, silent40)] 5 (3/40) (3/20) false)
        = some [0] ∧
      (5 : ℕ) / 2 = 2 := ⟨rfl, rfl⟩

/-- C5: if two stems' envelopes have differing frame counts, stacking them
fails (numpy's inhomogeneous-shape error, the spec's `FrameCountMismatch`):
the pipeline returns an error and never truncates or pads to reconcile. -/
theorem C5_frame_count_mismatch (stems : List (ℕ × List ℝ)) (win_len : ℕ)
    (lpf_cutoff theta : ℝ) (binarize : Bool) (e₁ e₂ : List ℝ)
    (h₁ : some e₁ ∈ stems.map (fun p => track_activation p.2 win_len (makeWin win_len)))
    (h₂ : some e₂ ∈ stems.map (fun p => track_activation p.2 win_len (makeWin win_len)))
    (hne : e₁.length ≠ e₂.length) :
    createActivation stems win_len lpf_cutoff theta binarize
      = .error .valueErrorInhomogeneous := by
  -- a stem produced an envelope, so the hop validation passed for all stems
  have hhop : win_len / 2 ≠ 0 := by
    rcases List.mem_map.mp h₁ with ⟨p, _, hfp⟩
    intro h0
    unfold track_activation track_activation_core at hfp
    rw [if_pos h0] at hfp
    exact Option.noConfusion hfp
  have hmap : stems.map (fun p => track_activation p.2 win_len (makeWin win_len))
      = (stems.map (fun p => envelopeFrames p.2 win_len (win_len / 2) (makeWin win_len))).map
          some := by
    rw [List.map_map]
    exact List.map_congr_left (fun p _ => track_activation_eq_some _ _ _ hhop)
  have hseq : seqEnvs (stems.map (fun p => track_activation p.2 win_len (makeWin win_len)))
      = some (stems.map (fun p => envelopeFrames p.2 win_len (win_len / 2) (makeWin win_len))) := by
    rw [hmap]
    exact seqEnvs_map_some _
  have he₁ : e₁ ∈ stems.map (fun p => envelopeFrames p.2 win_len (win_len / 2) (makeWin win_len)) := by
    rw [hmap] at h₁
    rcases List.mem_map.mp h₁ with ⟨x, hx, hxe⟩
    obtain rfl := Option.some.inj hxe
    exact hx
  have he₂ : e₂ ∈ stems.map (fun p => envelopeFrames p.2 win_len (win_len / 2) (makeWin win_len)) := by
    rw [hmap] at h₂
    rcases List.mem_map.mp h₂ with ⟨x, hx, hxe⟩
    obtain rfl := Option.some.inj hxe
    exact hx
  have hnonempty :
      (stems.map (fun p => envelopeFrames p.2 win_len (win_len / 2) (makeWin win_len))).isEmpty
        = false :=
    List.isEmpty_eq_false.mpr (List.ne_nil_of_mem he₁)
  have hall :
      allSameLength (stems.map (fun p => envelopeFrames p.2 win_len (win_len / 2) (makeWin win_len)))
        = false := by
    cases hb : allSameLength
        (stems.map (fun p => envelopeFrames p.2 win_len (win_len / 2) (makeWin win_len))) with
    | false => rfl
    | true =>
      exfalso
      unfold allSameLength at hb
      rw [List.all_eq_true] at hb
      have k₁ := hb e₁ he₁
      have k₂ := hb e₂ he₂
      rw [beq_iff_eq] at k₁ k₂
      exact hne (k₁.trans k₂.symm)
  unfold createActivation
  rw [hseq]
  simp [hnonempty, hall]

set_option maxHeartbeats 1600000 in
/-- C5 witness: stems of 10 and 50 samples produce envelopes of 3 and 13
frames, and the pipeline fails with the stacking error. -/
theorem C5_frame_count_witness :
    (some (envelopeFrames silent10 8 4 (makeWin 8))
        ∈ [((0:ℕ), silent10), (1, silent50)].map
            (fun p => track_activation p.2 8 (makeWin 8)) ∧
      some (envelopeFrames silent50 8 4 (makeWin 8))
        ∈ [((0:ℕ), silent10), (1, silent50)].map
            (fun p => track_activation p.2 8 (makeWin 8)) ∧
      (envelopeFrames silent10 8 4 (makeWin 8)).length
        ≠ (envelopeFrames silent50 8 4 (makeWin 8)).length) ∧
    createActivation [((0:ℕ), silent10), (1, silent50)] 8 (3/40) (3/20) false
      = .error .valueErrorInhomogeneous :=
  ⟨⟨List.mem_map_of_mem _ (List.mem_cons_self _ _),
    List.mem_map_of_mem _ (List.mem_cons_of_mem _ (List.mem_cons_self _ _)),
    by decide⟩,
   C5_frame_count_mismatch _ 8 (3/40) (3/20) false _ _
     (List.mem_map_of_mem _ (List.mem_cons_self _ _))
     (List.mem_map_of_mem _ (List.mem_cons_of_mem _ (List.mem_cons_self _ _)))
     (by decide)⟩

/-- C6: the analysis window is the symmetric Hann window sampled at length
`win_len + 2` with the first and last samples discarded — entry `k` is
`0.5 - 0.5*cos(2*pi*(k+1)/(win_len+1))` — and it differs from a
periodic/default Hann window of length `win_len`. -/
theorem C6_symmetric_hann_window (win_len : ℕ) (hwl : 1 ≤ win_len) :
    ((makeWin win_len).length = win_len ∧
      ∀ k, k < win_len → (makeWin win_len).getD k 0
        = 1/2 - 1/2 * Real.cos (2 * Real.pi * ((k:ℝ) + 1) / ((win_len:ℝ) + 1))) ∧
    makeWin win_len ≠ periodicHannSpec win_len := by
  refine ⟨⟨makeWin_length win_len, ?_⟩, ?_⟩
  · intro k hk
    rw [makeWin_eq]
    exact getD_range_map _ _ k hk 0
  · intro heq
    have h0 : (makeWin win_len).getD 0 0 = (periodicHannSpec win_len).getD 0 0 := by
      rw [heq]
    rw [makeWin_eq, getD_range_map _ _ 0 hwl 0] at h0
    unfold periodicHannSpec at h0
    rw [getD_range_map _ _ 0 hwl 0] at h0
    have hcos : Real.cos (2 * Real.pi / ((win_len:ℝ) + 1)) = 1 := by
      have harg : 2 * Real.pi * (((0:ℕ):ℝ) + 1) / ((win_len:ℝ) + 1)
          = 2 * Real.pi / ((win_len:ℝ) + 1) := by
        push_cast; ring
      have harg' : 2 * Real.pi * ((0:ℕ):ℝ) / ((win_len:ℝ)) = 0 := by
        push_cast; ring
      rw [harg, harg'] at h0
      rw [Real.cos_zero] at h0
      linarith
    have hwl' : (2:ℝ) ≤ (win_len:ℝ) + 1 := by
      have : (1:ℝ) ≤ (win_len:ℝ) := by exact_mod_cast hwl
      linarith
    have hx1 : (0:ℝ) < 2 * Real.pi / ((win_len:ℝ) + 1) := by positivity
    have hx2 : 2 * Real.pi / ((win_len:ℝ) + 1) < 2 * Real.pi := by
      rw [div_lt_iff₀ (by linarith)]
      have hpi := Real.pi_pos
      nlinarith
    have hzero := (Real.cos_eq_one_iff_of_lt_of_lt (by linarith) hx2).mp hcos
    linarith

/-- C6 witness: the window construction at `win_len = 4`. -/
theorem C6_symmetric_hann_witness :
    1 ≤ 4 ∧
      (((makeWin 4).length = 4 ∧
        ∀ k, k < 4 → (makeWin 4).getD k 0
          = 1/2 - 1/2 * Real.cos (2 * Real.pi * ((k:ℝ) + 1) / (((4:ℕ):ℝ) + 1))) ∧
      makeWin 4 ≠ periodicHannSpec 4) :=
  ⟨by norm_num, C6_symmetric_hann_window 4 (by norm_num)⟩

/-- C7: every envelope value the extractor produces — frame average of the
Hann-weighted square-rooted half-wave-rectified samples — is non-negative,
for every real waveform and every window length at which extraction
succeeds. -/
theorem C7_envelope_nonneg (wave : List ℝ) (win_len : ℕ) (env : List ℝ) (v : ℝ)
    (henv : track_activation wave win_len (makeWin win_len) = some env)
    (hv : v ∈ env) : 0 ≤ v := by
  unfold track_activation track_activation_core at henv
  by_cases h0 : win_len / 2 = 0
  · rw [if_pos h0] at henv
    exact Option.noConfusion henv
  · rw [if_neg h0] at henv
    obtain rfl := Option.some.inj henv
    unfold envelopeFrames at hv
    rcases List.mem_map.mp hv with ⟨i, _, rfl⟩
    exact div_nonneg (zip_env_sum_nonneg _ _ (makeWin_nonneg win_len)) (Nat.cast_nonneg _)

/-- C7 witness: the zero envelope value of a one-sample silent waveform. -/
theorem C7_envelope_nonneg_witness :
    (track_activation [(0:ℝ)] 2 (makeWin 2)
        = some (envelopeFrames [(0:ℝ)] 2 1 (makeWin 2)) ∧
      (0:ℝ) ∈ envelopeFrames [(0:ℝ)] 2 1 (makeWin 2)) ∧ (0:ℝ) ≤ 0 := by
  have hs : Real.sqrt (hwr 0) = 0 := by
    rw [show hwr 0 = 0 by norm_num [hwr], Real.sqrt_zero]
  have henv : track_activation [(0:ℝ)] 2 (makeWin 2)
      = some (envelopeFrames [(0:ℝ)] 2 1 (makeWin 2)) := rfl
  have hm : (0:ℝ) ∈ envelopeFrames [(0:ℝ)] 2 1 (makeWin 2) := by
    refine List.mem_singleton.mpr ?_
    show (0:ℝ) = _
    simp [hs, makeWin_eq, List.range_succ]
  exact ⟨⟨henv, hm⟩, C7_envelope_nonneg [(0:ℝ)] 2 _ 0 henv hm⟩

/-- C8: the ConfidenceMapper computes `1 - 1/(1 + exp(20*(h - theta)))`; it is
strictly monotonically increasing in `h` for fixed `theta`, and takes the
value `1/2` exactly at `h = theta`. -/
theorem C8_logistic (theta h₁ h₂ : ℝ) (hlt : h₁ < h₂) :
    conf theta h₁ < conf theta h₂ ∧ conf theta theta = 1/2 := by
  constructor
  · have hexp : Real.exp (20 * (h₁ - theta)) < Real.exp (20 * (h₂ - theta)) :=
      Real.exp_lt_exp.mpr (by linarith)
    have hp : 0 < 1 + Real.exp (20 * (h₁ - theta)) := by positivity
    have hdiv : 1 / (1 + Real.exp (20 * (h₂ - theta)))
        < 1 / (1 + Real.exp (20 * (h₁ - theta))) :=
      one_div_lt_one_div_of_lt hp (by linarith)
    simp only [conf]
    linarith
  · simp [conf, Real.exp_zero]
    norm_num

/-- C8 witness: the logistic map at `theta = 0` on `0 < 1`. -/
theorem C8_logistic_witness :
    (0 : ℝ) < 1 ∧ (conf 0 0 < conf 0 1 ∧ conf 0 0 = 1/2) :=
  ⟨by norm_num, C8_logistic 0 0 1 (by norm_num)⟩

/-- C9: binarization replaces a confidence value by `1` when it exceeds `1/2`
and by `0` otherwise; it is idempotent and its range is exactly `{0, 1}`. -/
theorem C9_binarize_idempotent (c : ℝ) :
    binarizeVal (binarizeVal c) = binarizeVal c ∧
      Set.range binarizeVal = {0, 1} := by
  constructor
  · by_cases h : 1/2 < c
    · have hc : binarizeVal c = 1 := by unfold binarizeVal; exact if_pos h
      rw [hc]
      unfold binarizeVal
      rw [if_pos (by norm_num : (1:ℝ)/2 < 1)]
    · have hc : binarizeVal c = 0 := by unfold binarizeVal; exact if_neg h
      rw [hc]
      unfold binarizeVal
      rw [if_neg (by norm_num : ¬ ((1:ℝ)/2 < 0))]
  · ext y
    constructor
    · rintro ⟨c, rfl⟩
      rcases le_or_lt c (1/2) with h | h
      · have hc : binarizeVal c = 0 := by unfold binarizeVal; exact if_neg (not_lt.mpr h)
        rw [hc]; simp
      · have hc : binarizeVal c = 1 := by unfold binarizeVal; exact if_pos h
        rw [hc]; simp
    · rintro (rfl | rfl)
      · exact ⟨0, by norm_num [binarizeVal]⟩
      · exact ⟨1, by norm_num [binarizeVal]⟩

/-- C10 (amended): for a multitrack with zero stems the pipeline returns no
activation matrix and raises none of the spec's named error kinds: it dies
with an unhandled library exception.  The failure is NOT the per-frame
sum/maximum (that step succeeds, see the counterexample): the stacked `H`
is a 1-d empty array, so the 2-d masked column assignment /
`filtfilt(axis=1)` step raises, and the loop-local sample-rate variable
used by the time axis is never bound. -/
theorem C10_empty_multitrack (win_len : ℕ) (lpf_cutoff theta : ℝ) (binarize : Bool) :
    createActivation [] win_len lpf_cutoff theta binarize
      = .error .axisErrorEmptyH := rfl

/-- C10 counterexample: the claim's stated mechanism — failure at "the
maximum of an empty per-frame sum" — is false.  On the zero-stem stack the
per-frame sum collapses to the scalar `0.0` (`np.sum(np.array([]), axis=0)`)
and `np.max` of it succeeds with `0.0`, so `maxE0 [] = 0` is a value, not an
error, and the normalization step completes (on the empty matrix it returns
the empty matrix); the unhandled exception arises only later, at the 2-d
operations on the 1-d empty `H`. -/
theorem C10_counterexample :
    maxE0 ([] : List (List ℝ)) = 0 ∧
      scaleH 0 (maxE0 ([] : List (List ℝ))) ([] : List (List ℝ)) = [] :=
  ⟨rfl, rfl⟩

end ActivationConf
